import Mathlib

/-!
Verification of the namespacelabel-assignment operator core.

The development embeds the two core components of the repository:

* `Handle` — the admission validator `NamespaceLabelValidator.Handle` from
  `internal/controller/namespace_label_webhook.go`, translated branch by
  branch from the Go source.
* `Reconcile` — the reconciliation loop `NamespaceLabelReconciler.Reconcile`.
  The controller's Go source file is not part of the provided sources (only
  its tests and its callers are), so `Reconcile`, together with the helper
  `isManagementLabel` it shares with the webhook, is modelled from the
  specification (spec.md §4.1, §6).

Label mappings (Go `map[string]string`) are embedded as association lists
`List (String × String)`; well-formed mappings have pairwise distinct keys
(`WFState`), which is what the Go map type guarantees by construction.
-/

namespace NamespaceLabelProof

/-- A label mapping: Go `map[string]string` embedded as an association list. -/
abbrev Labels := List (String × String)

/-- Modelled from the spec: `isManagementLabel` is defined in the controller
source file that is missing from the provided sources; spec.md §6 describes
the recognized set as "Exact or prefix match against the well-known management
namespace prefix (e.g., `kubernetes.io/` ...) — denied unconditionally
regardless of value." The repository's test exercises the key
`kubernetes.io/managed`. -/
def isManagementLabel (key : String) : Bool :=
  "kubernetes.io/".data.isPrefixOf key.data

/-- Lookup of a key in a label mapping (Go map indexing). -/
def lookupLabel (m : Labels) (k : String) : Option String :=
  match m with
  | [] => none
  | (k', v) :: rest => if k' = k then some v else lookupLabel rest k

/-- Insert or overwrite one key (Go `m[k] = v`). -/
def setLabel (m : Labels) (k v : String) : Labels :=
  match m with
  | [] => [(k, v)]
  | (k', v') :: rest => if k' = k then (k, v) :: rest else (k', v') :: setLabel rest k v

/-- The key set of a label mapping. -/
def keysOf (m : Labels) : List String := m.map Prod.fst

/-- Remove every key in `ks` from the mapping (Go `delete(m, k)` over the set). -/
def removeLabels (m : Labels) (ks : List String) : Labels :=
  m.filter (fun kv => !(ks.contains kv.1))

/-- The declaration object (custom resource `NamespaceLabel`): identity,
desired label mapping `spec.labels`, deletion marker (deletionTimestamp set),
and presence of the reconciler's finalizer. -/
structure NamespaceLabel where
  name : String
  labels : Labels
  deleted : Bool
  finalizer : Bool
deriving DecidableEq, Repr

/- ### Admission validator, from internal/controller/namespace_label_webhook.go -/

/-- Outcome of `NamespaceLabelValidator.Handle`: `admission.Errored(code, err)`,
`admission.Denied(reason)` or `admission.Allowed("")`. -/
inductive AdmissionResponse where
  | errored (code : Nat)
  | denied (reason : String)
  | allowed
deriving DecidableEq, Repr

/-- `NamespaceLabelValidator.Handle`, translated from
`namespace_label_webhook.go`. `decoded` is the result of
`decoder.Decode(req, namespaceLabel)` (`none` = decode error); `existing` is
the result of `Client.List` over the request's namespace (the Go code applies
no filter to this list: it may contain declarations marked for deletion and,
on update, the incoming object's own prior version). The Go code:
decode error returns `Errored(400)`; a non-empty list returns
`Denied("only one NamespaceLabel allowed per namespace")`; any management
key in `Spec.Labels` returns the constant
`Denied("cannot add protected or management label")`; otherwise `Allowed("")`. -/
def Handle (decoded : Option NamespaceLabel) (existing : List NamespaceLabel) :
    AdmissionResponse :=
  match decoded with
  | none => .errored 400
  | some namespaceLabel =>
    if existing.length > 0 then
      .denied "only one NamespaceLabel allowed per namespace"
    else
      match namespaceLabel.labels.find? (fun kv => isManagementLabel kv.1) with
      | some _ => .denied "cannot add protected or management label"
      | none => .allowed

/- ### Reconciler, modelled from spec.md §4.1 -/

/-- The observed state a reconciliation works on: the declarations living in
the target namespace, the target namespace's label mapping, and the ownership
record of the declaration under reconciliation (the key set it most recently
applied, spec.md §3). -/
structure ClusterState where
  decls : List NamespaceLabel
  nsLabels : Labels
  owned : List String
deriving DecidableEq, Repr

/-- `Client.Get` of a declaration by name. -/
def findDecl (decls : List NamespaceLabel) (name : String) : Option NamespaceLabel :=
  decls.find? (fun d => d.name == name)

/-- Ensure the finalizer is present on the named declaration (spec §4.1.2.c). -/
def setFinalizer (decls : List NamespaceLabel) (name : String) : List NamespaceLabel :=
  decls.map (fun d => if d.name = name then { d with finalizer := true } else d)

/-- The API server completes deletion once the finalizer is removed. -/
def removeDecl (decls : List NamespaceLabel) (name : String) : List NamespaceLabel :=
  decls.filter (fun d => d.name != name)

/-- First declared key matching the reserved set, if any (spec §4.1.2.b). -/
def firstManagementKey (m : Labels) : Option String :=
  (m.find? (fun kv => isManagementLabel kv.1)).map Prod.fst

/-- Keys to add or update: declared pairs whose value differs from or is
absent in the target (spec §4.1.2.e). -/
def addUpdateSet (declared target : Labels) : Labels :=
  declared.filter (fun kv => lookupLabel target kv.1 != some kv.2)

/-- Apply the label delta to the target mapping in a single update
(spec §4.1.2.e-f): delete the keys this declaration previously owned but no
longer declares, then add/overwrite the add/update set; labels in neither set
are untouched. -/
def applyDelta (target declared : Labels) (owned : List String) : Labels :=
  (addUpdateSet declared target).foldl (fun acc kv => setLabel acc kv.1 kv.2)
    (removeLabels target (owned.filter (fun k => !((keysOf declared).contains k))))

/-- Modelled from the spec: `NamespaceLabelReconciler.Reconcile` (spec.md
§4.1); the controller's Go source file is missing from the provided sources.
Case 1: object not found — succeed with no action. Case 2 (found, not marked
for deletion): fail if more than one non-deleted declaration exists in the
namespace; fail if any declared key matches the reserved set (the test
asserts the message `cannot add protected or management label '<key>'`);
otherwise ensure the finalizer, apply the delta and persist the new ownership
record = declared key set. Case 3 (found, marked for deletion, finalizer
present): remove exactly the owned keys from the target (already-absent keys
are not an error) and remove the finalizer, letting deletion complete.
A failed reconciliation performs no mutation (`Except.error` carries no
state). -/
def Reconcile (s : ClusterState) (name : String) : Except String ClusterState :=
  match findDecl s.decls name with
  | none => .ok s
  | some d =>
    if d.deleted then
      if d.finalizer then
        .ok { decls := removeDecl s.decls name,
              nsLabels := removeLabels s.nsLabels s.owned,
              owned := [] }
      else
        .ok s
    else
      if (s.decls.filter (fun d => !d.deleted)).length > 1 then
        .error "only one NamespaceLabel allowed per namespace"
      else
        match firstManagementKey d.labels with
        | some k => .error ("cannot add protected or management label \x27" ++ k ++ "\x27")
        | none =>
          .ok { decls := setFinalizer s.decls name,
                nsLabels := applyDelta s.nsLabels d.labels s.owned,
                owned := keysOf d.labels }

/-- Well-formed observed state: every declaration's label mapping has
pairwise distinct keys, as the Go `map[string]string` type guarantees. -/
def WFState (s : ClusterState) : Prop :=
  ∀ d ∈ s.decls, (keysOf d.labels).Nodup

instance (s : ClusterState) : Decidable (WFState s) := by
  unfold WFState; infer_instance

/- ### Lemmas about the label-mapping operations -/

theorem lookupLabel_setLabel_self (m : Labels) (k v : String) :
    lookupLabel (setLabel m k v) k = some v := by
  induction m with
  | nil => simp [setLabel, lookupLabel]
  | cons kv rest ih =>
    obtain ⟨k', v'⟩ := kv
    by_cases h : k' = k <;> simp [setLabel, lookupLabel, h, ih]

theorem lookupLabel_setLabel_ne (m : Labels) (k v k' : String) (h : k' ≠ k) :
    lookupLabel (setLabel m k v) k' = lookupLabel m k' := by
  have hne : k ≠ k' := fun hk => h hk.symm
  induction m with
  | nil => simp [setLabel, lookupLabel, hne]
  | cons kv rest ih =>
    obtain ⟨k0, v0⟩ := kv
    simp only [setLabel]
    by_cases h0 : k0 = k
    · rw [if_pos h0]
      simp only [lookupLabel]
      rw [if_neg hne, if_neg (h0 ▸ hne)]
    · rw [if_neg h0]
      simp only [lookupLabel]
      by_cases h1 : k0 = k'
      · rw [if_pos h1, if_pos h1]
      · rw [if_neg h1, if_neg h1, ih]

theorem lookupLabel_foldl_not_mem (L : Labels) (m : Labels) (k : String)
    (h : k ∉ keysOf L) :
    lookupLabel (L.foldl (fun acc kv => setLabel acc kv.1 kv.2) m) k = lookupLabel m k := by
  induction L generalizing m with
  | nil => rfl
  | cons kv rest ih =>
    simp only [keysOf, List.map_cons, List.mem_cons, not_or] at h
    simp only [List.foldl_cons]
    rw [ih _ (by simpa [keysOf] using h.2), lookupLabel_setLabel_ne _ _ _ _ h.1]

theorem lookupLabel_foldl_mem (L : Labels) (m : Labels) (k v : String)
    (hnd : (keysOf L).Nodup) (hmem : (k, v) ∈ L) :
    lookupLabel (L.foldl (fun acc kv => setLabel acc kv.1 kv.2) m) k = some v := by
  induction L generalizing m with
  | nil => cases hmem
  | cons kv rest ih =>
    simp only [keysOf, List.map_cons, List.nodup_cons] at hnd
    rcases List.mem_cons.mp hmem with h | h
    · subst h
      simp only [List.foldl_cons]
      rw [lookupLabel_foldl_not_mem _ _ _ (by simpa [keysOf] using hnd.1)]
      exact lookupLabel_setLabel_self _ _ _
    · exact ih _ hnd.2 h

theorem lookupLabel_removeLabels_mem (m : Labels) (ks : List String) (k : String)
    (h : k ∈ ks) :
    lookupLabel (removeLabels m ks) k = none := by
  induction m with
  | nil => rfl
  | cons kv rest ih =>
    obtain ⟨k0, v0⟩ := kv
    by_cases h0 : k0 ∈ ks
    · simpa [removeLabels, lookupLabel, h0] using ih
    · have hne : k0 ≠ k := fun he => h0 (he ▸ h)
      simpa [removeLabels, lookupLabel, h0, hne] using ih

theorem lookupLabel_removeLabels_not_mem (m : Labels) (ks : List String) (k : String)
    (h : k ∉ ks) :
    lookupLabel (removeLabels m ks) k = lookupLabel m k := by
  induction m with
  | nil => rfl
  | cons kv rest ih =>
    obtain ⟨k0, v0⟩ := kv
    simp only [removeLabels, List.contains, List.elem_eq_mem, List.filter_cons] at ih ⊢
    by_cases h0 : k0 ∈ ks
    · have hne : k0 ≠ k := fun he => h (he ▸ h0)
      simp [h0, lookupLabel, hne, ih]
    · by_cases h1 : k0 = k
      · simp [h0, h, lookupLabel, h1]
      · simp [h0, lookupLabel, h1, ih]

theorem value_eq_of_nodup (m : Labels) (hnd : (keysOf m).Nodup) {k v w : String}
    (h1 : (k, v) ∈ m) (h2 : (k, w) ∈ m) : v = w := by
  induction m with
  | nil => cases h1
  | cons kv rest ih =>
    obtain ⟨k0, v0⟩ := kv
    simp only [keysOf, List.map_cons, List.nodup_cons] at hnd
    rcases List.mem_cons.mp h1 with e1 | e1 <;> rcases List.mem_cons.mp h2 with e2 | e2
    · injection e1 with hk1 hv1
      injection e2 with hk2 hv2
      rw [hv1, hv2]
    · injection e1 with hk1 hv1
      refine absurd (List.mem_map_of_mem Prod.fst e2) ?_
      rw [← hk1] at hnd
      exact hnd.1
    · injection e2 with hk2 hv2
      refine absurd (List.mem_map_of_mem Prod.fst e1) ?_
      rw [← hk2] at hnd
      exact hnd.1
    · exact ih hnd.2 e1 e2

theorem nodup_keysOf_filter (m : Labels) (p : String × String → Bool)
    (hnd : (keysOf m).Nodup) : (keysOf (m.filter p)).Nodup := by
  induction m with
  | nil => simp [keysOf]
  | cons kv rest ih =>
    simp only [keysOf, List.map_cons, List.nodup_cons] at hnd
    by_cases hp : p kv
    · simp only [List.filter_cons, hp, if_true, keysOf, List.map_cons, List.nodup_cons]
      refine ⟨fun hm => hnd.1 ?_, ih hnd.2⟩
      rcases List.mem_map.mp hm with ⟨kv', hkv', he⟩
      exact he ▸ List.mem_map_of_mem Prod.fst (List.mem_of_mem_filter hkv')
    · simp only [List.filter_cons, hp, Bool.false_eq_true, if_false]
      exact ih hnd.2

theorem mem_keysOf_of_mem {m : Labels} {kv : String × String} (h : kv ∈ m) :
    kv.1 ∈ keysOf m := List.mem_map_of_mem Prod.fst h

theorem exists_of_mem_keysOf {m : Labels} {k : String} (h : k ∈ keysOf m) :
    ∃ v, (k, v) ∈ m := by
  rcases List.mem_map.mp h with ⟨⟨k0, v0⟩, hm, he⟩
  exact ⟨v0, by simpa [← he] using hm⟩

/- ### Lemmas about the label delta (spec §4.1.2.e-f) -/

theorem applyDelta_lookup_declared (target declared : Labels) (owned : List String)
    (hnd : (keysOf declared).Nodup) {k v : String} (hmem : (k, v) ∈ declared) :
    lookupLabel (applyDelta target declared owned) k = some v := by
  unfold applyDelta
  by_cases hc : lookupLabel target k = some v
  · have hknot : k ∉ keysOf (addUpdateSet declared target) := by
      intro hk
      rcases exists_of_mem_keysOf hk with ⟨w, hw⟩
      have hwdecl : (k, w) ∈ declared := List.mem_of_mem_filter hw
      have hwv : w = v := value_eq_of_nodup declared hnd hwdecl hmem
      have hcond := List.of_mem_filter hw
      rw [hwv] at hcond
      simp [hc] at hcond
    rw [lookupLabel_foldl_not_mem _ _ _ hknot]
    have hkdecl : k ∈ keysOf declared := mem_keysOf_of_mem hmem
    have hnr : k ∉ owned.filter (fun k' => !((keysOf declared).contains k')) := by
      intro hk
      have hcond := List.of_mem_filter hk
      simp [hkdecl] at hcond
    rw [lookupLabel_removeLabels_not_mem _ _ _ hnr, hc]
  · have hmemL : (k, v) ∈ addUpdateSet declared target :=
      List.mem_filter.mpr ⟨hmem, by simp [hc]⟩
    exact lookupLabel_foldl_mem _ _ _ _ (nodup_keysOf_filter _ _ hnd) hmemL

theorem applyDelta_lookup_untouched (target declared : Labels) (owned : List String)
    {k : String} (h1 : k ∉ keysOf declared) (h2 : k ∉ owned) :
    lookupLabel (applyDelta target declared owned) k = lookupLabel target k := by
  unfold applyDelta
  have hknot : k ∉ keysOf (addUpdateSet declared target) := by
    intro hk
    rcases exists_of_mem_keysOf hk with ⟨w, hw⟩
    exact h1 (mem_keysOf_of_mem (List.mem_of_mem_filter hw))
  rw [lookupLabel_foldl_not_mem _ _ _ hknot]
  exact lookupLabel_removeLabels_not_mem _ _ _
    (fun hk => h2 (List.mem_of_mem_filter hk))

theorem applyDelta_lookup_removed (target declared : Labels) (owned : List String)
    {k : String} (h1 : k ∈ owned) (h2 : k ∉ keysOf declared) :
    lookupLabel (applyDelta target declared owned) k = none := by
  unfold applyDelta
  have hknot : k ∉ keysOf (addUpdateSet declared target) := by
    intro hk
    rcases exists_of_mem_keysOf hk with ⟨w, hw⟩
    exact h2 (mem_keysOf_of_mem (List.mem_of_mem_filter hw))
  rw [lookupLabel_foldl_not_mem _ _ _ hknot]
  exact lookupLabel_removeLabels_mem _ _ _
    (List.mem_filter.mpr ⟨h1, by simp [h2]⟩)

theorem applyDelta_self (target declared : Labels)
    (h : ∀ kv ∈ declared, lookupLabel target kv.1 = some kv.2) :
    applyDelta target declared (keysOf declared) = target := by
  unfold applyDelta
  have hrm : (keysOf declared).filter (fun k => !((keysOf declared).contains k)) = [] := by
    apply List.filter_eq_nil_iff.mpr
    intro k hk
    simp [hk]
  have hau : addUpdateSet declared target = [] := by
    apply List.filter_eq_nil_iff.mpr
    intro kv hkv
    simp [h kv hkv]
  rw [hrm, hau]
  simp [removeLabels]

/- ### Structural lemmas about Reconcile -/

theorem reconcile_active_inv (s : ClusterState) (name : String) (d : NamespaceLabel)
    (s' : ClusterState)
    (hfind : findDecl s.decls name = some d)
    (hdel : d.deleted = false)
    (hok : Reconcile s name = .ok s') :
    s' = { decls := setFinalizer s.decls name,
           nsLabels := applyDelta s.nsLabels d.labels s.owned,
           owned := keysOf d.labels } ∧
    firstManagementKey d.labels = none := by
  unfold Reconcile at hok
  rw [hfind] at hok
  simp only [hdel, Bool.false_eq_true, if_false] at hok
  by_cases hs : (s.decls.filter (fun d => !d.deleted)).length > 1
  · rw [if_pos hs] at hok
    cases hok
  · rw [if_neg hs] at hok
    cases hm : firstManagementKey d.labels with
    | some k =>
      rw [hm] at hok
      cases hok
    | none =>
      rw [hm] at hok
      injection hok with hok
      exact ⟨hok.symm, rfl⟩

theorem reconcile_deleted_ok (s : ClusterState) (name : String) (d : NamespaceLabel)
    (hfind : findDecl s.decls name = some d)
    (hdel : d.deleted = true) (hfin : d.finalizer = true) :
    Reconcile s name =
      .ok ⟨removeDecl s.decls name, removeLabels s.nsLabels s.owned, []⟩ := by
  simp [Reconcile, hfind, hdel, hfin]

theorem findDecl_removeDecl (decls : List NamespaceLabel) (name : String) :
    findDecl (removeDecl decls name) name = none := by
  apply List.find?_eq_none.mpr
  intro d hd
  have hne := List.of_mem_filter hd
  simp at hne ⊢
  exact hne

theorem findDecl_setFinalizer (decls : List NamespaceLabel) (name : String)
    (d : NamespaceLabel) (h : findDecl decls name = some d) :
    findDecl (setFinalizer decls name) name = some { d with finalizer := true } := by
  induction decls with
  | nil => cases h
  | cons d0 rest ih =>
    simp only [findDecl, setFinalizer] at h ih ⊢
    by_cases hn : d0.name = name
    · rw [List.find?_cons_of_pos _ (by simp [hn])] at h
      injection h with h
      subst h
      simp only [List.map_cons, if_pos hn]
      rw [List.find?_cons_of_pos _ (by simp [hn])]
    · rw [List.find?_cons_of_neg _ (by simp [hn])] at h
      simp only [List.map_cons, if_neg hn]
      rw [List.find?_cons_of_neg _ (by simp [hn])]
      exact ih h

theorem filter_deleted_setFinalizer (decls : List NamespaceLabel) (name : String) :
    ((setFinalizer decls name).filter (fun d => !d.deleted)).length =
      (decls.filter (fun d => !d.deleted)).length := by
  induction decls with
  | nil => rfl
  | cons d0 rest ih =>
    simp only [setFinalizer, List.map_cons] at ih ⊢
    by_cases hn : d0.name = name
    · simp only [if_pos hn, List.filter_cons]
      cases hd : d0.deleted <;> simp [hd, ih]
    · simp only [if_neg hn, List.filter_cons]
      cases hd : d0.deleted <;> simp [hd, ih]

theorem setFinalizer_idem (decls : List NamespaceLabel) (name : String) :
    setFinalizer (setFinalizer decls name) name = setFinalizer decls name := by
  induction decls with
  | nil => rfl
  | cons d0 rest ih =>
    simp only [setFinalizer, List.map_cons] at ih ⊢
    by_cases hn : d0.name = name
    · simp [hn, ih]
    · simp [hn, ih]

/- ### Claim theorems: admission validator -/

/-- Claim C9: an admission request that fails to decode is answered with a
client error (`Errored` with HTTP status 400, the malformed-request class)
and never with a policy denial; no policy rule is evaluated for it. -/
theorem handle_decode_error_client_error (existing : List NamespaceLabel) :
    Handle none existing = .errored 400 ∧
    ∀ reason, Handle none existing ≠ .denied reason := by
  refine ⟨rfl, fun reason h => ?_⟩
  simp [Handle] at h

/-- Claim C10: a well-formed request with an empty declared mapping in a
namespace with no existing declarations is allowed — the protected-label
rule is vacuously satisfied over the empty mapping. -/
theorem handle_empty_labels_allowed (nl : NamespaceLabel)
    (existing : List NamespaceLabel)
    (hempty : nl.labels = []) (hnone : existing = []) :
    Handle (some nl) existing = .allowed := by
  subst hnone
  simp [Handle, hempty]

/-- Witness for C10 at a concrete declaration with an empty mapping. -/
theorem handle_empty_labels_allowed_witness :
    (NamespaceLabel.mk "empty-labels" [] false false).labels = [] ∧
    ([] : List NamespaceLabel) = [] ∧
    Handle (some (NamespaceLabel.mk "empty-labels" [] false false)) [] = .allowed :=
  ⟨rfl, rfl, handle_empty_labels_allowed _ [] rfl rfl⟩

/-- Counterexample to claim C3: on an update, the webhook's `Client.List`
result contains the incoming object's own prior version, and the Go code
denies whenever that list is non-empty — so updating the sole existing
declaration in a namespace IS denied by the uniqueness rule, contrary to
the claim. -/
theorem handle_update_sole_declaration_denied :
    Handle (some (NamespaceLabel.mk "only" [("label_1", "a")] false false))
        [NamespaceLabel.mk "only" [("label_1", "a")] false false] =
      .denied "only one NamespaceLabel allowed per namespace" := by
  decide

/-- Claim C3 as amended: `Handle` denies with reason
"only one NamespaceLabel allowed per namespace" exactly when the listed
declarations of the target namespace are non-empty — with no exclusion for
deleted declarations or for the incoming object's own prior version on
update. -/
theorem handle_uniqueness_denies_iff (nl : NamespaceLabel)
    (existing : List NamespaceLabel) :
    Handle (some nl) existing = .denied "only one NamespaceLabel allowed per namespace"
      ↔ existing ≠ [] := by
  constructor
  · intro h hne
    subst hne
    cases hfind : (nl.labels.find? (fun kv => isManagementLabel kv.1)) with
    | none =>
      simp [Handle, hfind] at h
    | some kv =>
      simp [Handle, hfind] at h
  · intro hne
    have hpos : 0 < existing.length := List.length_pos.mpr hne
    simp [Handle, hpos]

/-- Counterexample to claim C2: the Go webhook denies a protected-label
request with the constant reason "cannot add protected or management label",
which does not include the offending key and is therefore not of the claimed
form "cannot add protected or management label '&lt;key&gt;'". -/
theorem handle_protected_reason_lacks_key :
    Handle (some (NamespaceLabel.mk "managed-label-resource"
        [("kubernetes.io/managed", "true")] false false)) [] =
      .denied "cannot add protected or management label" ∧
    "cannot add protected or management label" ≠
      "cannot add protected or management label \x27kubernetes.io/managed\x27" := by
  exact ⟨by decide, by decide⟩

/-- Claim C2 as amended: for every request that passes the uniqueness rule
and whose declared mapping contains a protected/management key, `Handle`
denies with the fixed reason "cannot add protected or management label" —
naming the violated rule but not the offending key. -/
theorem handle_protected_label_denied (nl : NamespaceLabel)
    (existing : List NamespaceLabel)
    (hnone : existing = [])
    (hk : ∃ kv ∈ nl.labels, isManagementLabel kv.1) :
    Handle (some nl) existing = .denied "cannot add protected or management label" := by
  subst hnone
  cases hfind : (nl.labels.find? (fun kv => isManagementLabel kv.1)) with
  | none =>
    rcases hk with ⟨kv, hmem, hmgmt⟩
    have hno := List.find?_eq_none.mp hfind kv hmem
    simp [hmgmt] at hno
  | some kv =>
    simp [Handle, hfind]

/-- Witness for the amended C2 at the concrete request from the repository's
test (`kubernetes.io/managed`). -/
theorem handle_protected_label_denied_witness :
    ([] : List NamespaceLabel) = [] ∧
    (∃ kv ∈ (NamespaceLabel.mk "managed" [("kubernetes.io/managed", "true")]
        false false).labels, isManagementLabel kv.1) ∧
    Handle (some (NamespaceLabel.mk "managed" [("kubernetes.io/managed", "true")]
        false false)) [] = .denied "cannot add protected or management label" :=
  ⟨rfl, by decide, handle_protected_label_denied _ [] rfl (by decide)⟩

/- ### Claim theorems: reconciler -/

instance {ε α : Type} [DecidableEq ε] [DecidableEq α] : DecidableEq (Except ε α) := fun
  | .error e, .error e' =>
    if h : e = e' then .isTrue (by rw [h])
    else .isFalse (by intro hc; cases hc; exact h rfl)
  | .error _, .ok _ => .isFalse (by intro hc; cases hc)
  | .ok _, .error _ => .isFalse (by intro hc; cases hc)
  | .ok a, .ok b =>
    if h : a = b then .isTrue (by rw [h])
    else .isFalse (by intro hc; cases hc; exact h rfl)

/-- Claim C4: whenever two or more non-deleted declarations exist in the
namespace, reconciling any (non-deleted) one of them fails with the
single-declaration policy error and performs no mutation (an `Except.error`
outcome carries no new state). -/
theorem reconcile_multiple_declarations_error (s : ClusterState) (name : String)
    (d : NamespaceLabel)
    (hfind : findDecl s.decls name = some d)
    (hdel : d.deleted = false)
    (hcount : 2 ≤ (s.decls.filter (fun d => !d.deleted)).length) :
    Reconcile s name = .error "only one NamespaceLabel allowed per namespace" ∧
    ∀ s' : ClusterState, Reconcile s name ≠ .ok s' := by
  have hgt : (s.decls.filter (fun d => !d.deleted)).length > 1 := hcount
  have herr : Reconcile s name = .error "only one NamespaceLabel allowed per namespace" := by
    simp [Reconcile, hfind, hdel, hgt]
  exact ⟨herr, fun s' h => by rw [herr] at h; cases h⟩

/-- Witness for C4: the repository test's scenario of a second declaration
in the `default` namespace. -/
theorem reconcile_multiple_declarations_error_witness :
    findDecl [⟨"first-resource", [("label_1", "a")], false, false⟩,
        ⟨"second-resource", [("label_2", "b")], false, false⟩] "second-resource"
      = some ⟨"second-resource", [("label_2", "b")], false, false⟩ ∧
    (⟨"second-resource", [("label_2", "b")], false, false⟩ : NamespaceLabel).deleted
      = false ∧
    2 ≤ (([⟨"first-resource", [("label_1", "a")], false, false⟩,
        ⟨"second-resource", [("label_2", "b")], false, false⟩] :
          List NamespaceLabel).filter (fun d => !d.deleted)).length ∧
    Reconcile ⟨[⟨"first-resource", [("label_1", "a")], false, false⟩,
        ⟨"second-resource", [("label_2", "b")], false, false⟩], [], []⟩
        "second-resource"
      = .error "only one NamespaceLabel allowed per namespace" :=
  ⟨by decide, rfl, by decide,
    (reconcile_multiple_declarations_error
      ⟨[⟨"first-resource", [("label_1", "a")], false, false⟩,
        ⟨"second-resource", [("label_2", "b")], false, false⟩], [], []⟩
      "second-resource" ⟨"second-resource", [("label_2", "b")], false, false⟩
      (by decide) rfl (by decide)).1⟩

/-- Claim C5: a declaration whose mapping holds a reserved/protected key —
reconciled in a namespace where the single-declaration check passes, which
is evaluated first per spec §4.1.2.a-b — fails with the policy error naming
a protected key, and none of its labels are applied (an `Except.error`
outcome carries no new state). -/
theorem reconcile_protected_label_error (s : ClusterState) (name : String)
    (d : NamespaceLabel) (k : String)
    (hfind : findDecl s.decls name = some d)
    (hdel : d.deleted = false)
    (hsingle : (s.decls.filter (fun d => !d.deleted)).length ≤ 1)
    (hk : k ∈ keysOf d.labels) (hmk : isManagementLabel k = true) :
    ∃ k', k' ∈ keysOf d.labels ∧ isManagementLabel k' = true ∧
      Reconcile s name =
        .error ("cannot add protected or management label \x27" ++ k' ++ "\x27") ∧
      ∀ s' : ClusterState, Reconcile s name ≠ .ok s' := by
  have hne : ¬ (s.decls.filter (fun d => !d.deleted)).length > 1 := by omega
  cases hfm : firstManagementKey d.labels with
  | none =>
    exfalso
    rcases exists_of_mem_keysOf hk with ⟨v, hv⟩
    have hfmn : d.labels.find? (fun kv => isManagementLabel kv.1) = none := by
      unfold firstManagementKey at hfm
      exact Option.map_eq_none'.mp hfm
    have hno := List.find?_eq_none.mp hfmn (k, v) hv
    exact hno hmk
  | some k' =>
    have hfms : ∃ kv, d.labels.find? (fun kv => isManagementLabel kv.1) = some kv ∧
        kv.1 = k' := by
      unfold firstManagementKey at hfm
      exact Option.map_eq_some'.mp hfm
    rcases hfms with ⟨kv, hkv, hfst⟩
    have hmem := List.mem_of_find?_eq_some hkv
    have hp := List.find?_some hkv
    have herr : Reconcile s name =
        .error ("cannot add protected or management label \x27" ++ k' ++ "\x27") := by
      simp [Reconcile, hfind, hdel, hne, hfm]
    exact ⟨k', hfst ▸ mem_keysOf_of_mem hmem, hfst ▸ hp, herr,
      fun s' h => by rw [herr] at h; cases h⟩

/-- Witness for C5: the repository test's `kubernetes.io/managed` scenario,
together with an unrelated safe key in the same mapping. -/
theorem reconcile_protected_label_error_witness :
    findDecl [⟨"managed-label-resource",
        [("kubernetes.io/managed", "true"), ("safe", "1")], false, false⟩]
        "managed-label-resource"
      = some ⟨"managed-label-resource",
          [("kubernetes.io/managed", "true"), ("safe", "1")], false, false⟩ ∧
    "kubernetes.io/managed" ∈ keysOf [("kubernetes.io/managed", "true"), ("safe", "1")] ∧
    isManagementLabel "kubernetes.io/managed" = true ∧
    (∃ k', k' ∈ keysOf [("kubernetes.io/managed", "true"), ("safe", "1")] ∧
      isManagementLabel k' = true ∧
      Reconcile ⟨[⟨"managed-label-resource",
          [("kubernetes.io/managed", "true"), ("safe", "1")], false, false⟩], [], []⟩
          "managed-label-resource" =
        .error ("cannot add protected or management label \x27" ++ k' ++ "\x27") ∧
      ∀ s' : ClusterState,
        Reconcile ⟨[⟨"managed-label-resource",
            [("kubernetes.io/managed", "true"), ("safe", "1")], false, false⟩], [], []⟩
            "managed-label-resource" ≠ .ok s') :=
  ⟨by decide, by decide, by decide,
    reconcile_protected_label_error
      ⟨[⟨"managed-label-resource",
          [("kubernetes.io/managed", "true"), ("safe", "1")], false, false⟩], [], []⟩
      "managed-label-resource"
      ⟨"managed-label-resource",
        [("kubernetes.io/managed", "true"), ("safe", "1")], false, false⟩
      "kubernetes.io/managed" (by decide) rfl (by decide) (by decide) (by decide)⟩

/-- Claim C7: immediately after any successful reconciliation of a
non-deleted declaration, the ownership record equals exactly the declared
key set, every declared key is on the target namespace with its declared
value, and no stale formerly-owned key remains. -/
theorem reconcile_ownership_record_invariant (s : ClusterState) (name : String)
    (d : NamespaceLabel) (s' : ClusterState)
    (hfind : findDecl s.decls name = some d)
    (hdel : d.deleted = false)
    (hnd : (keysOf d.labels).Nodup)
    (hok : Reconcile s name = .ok s') :
    s'.owned = keysOf d.labels ∧
    (∀ kv ∈ d.labels, lookupLabel s'.nsLabels kv.1 = some kv.2) ∧
    (∀ k ∈ s.owned, k ∉ keysOf d.labels → lookupLabel s'.nsLabels k = none) := by
  obtain ⟨hs', -⟩ := reconcile_active_inv s name d s' hfind hdel hok
  subst hs'
  exact ⟨rfl, fun kv hkv => applyDelta_lookup_declared _ _ _ hnd hkv,
    fun k hk hnk => applyDelta_lookup_removed _ _ _ hk hnk⟩

/-- Witness for C7 at a state holding a stale formerly-owned key. -/
theorem reconcile_ownership_record_invariant_witness :
    findDecl [⟨"r", [("label_1", "a"), ("label_2", "b")], false, false⟩] "r"
      = some ⟨"r", [("label_1", "a"), ("label_2", "b")], false, false⟩ ∧
    (keysOf [("label_1", "a"), ("label_2", "b")]).Nodup ∧
    Reconcile ⟨[⟨"r", [("label_1", "a"), ("label_2", "b")], false, false⟩],
        [("x", "y")], ["stale"]⟩ "r"
      = .ok ⟨[⟨"r", [("label_1", "a"), ("label_2", "b")], false, true⟩],
          [("x", "y"), ("label_1", "a"), ("label_2", "b")], ["label_1", "label_2"]⟩ ∧
    ((["label_1", "label_2"] : List String) = keysOf [("label_1", "a"), ("label_2", "b")] ∧
      (∀ kv ∈ ([("label_1", "a"), ("label_2", "b")] : Labels),
        lookupLabel [("x", "y"), ("label_1", "a"), ("label_2", "b")] kv.1 = some kv.2) ∧
      (∀ k ∈ (["stale"] : List String), k ∉ keysOf [("label_1", "a"), ("label_2", "b")] →
        lookupLabel [("x", "y"), ("label_1", "a"), ("label_2", "b")] k = none)) :=
  ⟨by decide, by decide, by decide,
    reconcile_ownership_record_invariant
      ⟨[⟨"r", [("label_1", "a"), ("label_2", "b")], false, false⟩],
        [("x", "y")], ["stale"]⟩ "r"
      ⟨"r", [("label_1", "a"), ("label_2", "b")], false, false⟩
      ⟨[⟨"r", [("label_1", "a"), ("label_2", "b")], false, true⟩],
        [("x", "y"), ("label_1", "a"), ("label_2", "b")], ["label_1", "label_2"]⟩
      (by decide) rfl (by decide) (by decide)⟩

/-- Claim C8: after a fresh declaration with labels `d` is reconciled
successfully and then marked for deletion, the next `Reconcile` succeeds,
removes exactly the owned keys (= the declared keys) from the target — an
already-absent key is simply skipped, not an error — and leaves every other
target label unchanged relative to the initial mapping. -/
theorem reconcile_deletion_cleanup (nm : String) (d ns0 : Labels) (s1 : ClusterState)
    (h1 : Reconcile ⟨[⟨nm, d, false, false⟩], ns0, []⟩ nm = .ok s1) :
    ∃ s2 : ClusterState,
      Reconcile ⟨[⟨nm, d, true, true⟩], s1.nsLabels, s1.owned⟩ nm = .ok s2 ∧
      (∀ k ∈ keysOf d, lookupLabel s2.nsLabels k = none) ∧
      (∀ k, k ∉ keysOf d → lookupLabel s2.nsLabels k = lookupLabel ns0 k) := by
  have hfind1 : findDecl [⟨nm, d, false, false⟩] nm = some ⟨nm, d, false, false⟩ := by
    simp [findDecl]
  obtain ⟨hs1, -⟩ := reconcile_active_inv _ nm _ _ hfind1 rfl h1
  subst hs1
  have hfind2 : findDecl [(⟨nm, d, true, true⟩ : NamespaceLabel)] nm
      = some ⟨nm, d, true, true⟩ := by
    simp [findDecl]
  refine ⟨_, reconcile_deleted_ok _ nm _ hfind2 rfl rfl, ?_, ?_⟩
  · intro k hk
    exact lookupLabel_removeLabels_mem _ _ _ hk
  · intro k hk
    rw [lookupLabel_removeLabels_not_mem _ _ _ hk]
    exact applyDelta_lookup_untouched _ _ _ hk (List.not_mem_nil k)

/-- Witness for C8: the repository test's `{a:1, b:2}` scenario over a
target namespace that carries an unrelated label. -/
theorem reconcile_deletion_cleanup_witness :
    Reconcile ⟨[⟨"r", [("a", "1"), ("b", "2")], false, false⟩], [("x", "y")], []⟩ "r"
      = .ok ⟨[⟨"r", [("a", "1"), ("b", "2")], false, true⟩],
          [("x", "y"), ("a", "1"), ("b", "2")], ["a", "b"]⟩ ∧
    (∃ s2 : ClusterState,
      Reconcile ⟨[⟨"r", [("a", "1"), ("b", "2")], true, true⟩],
          (⟨[⟨"r", [("a", "1"), ("b", "2")], false, true⟩],
            [("x", "y"), ("a", "1"), ("b", "2")], ["a", "b"]⟩ : ClusterState).nsLabels,
          (⟨[⟨"r", [("a", "1"), ("b", "2")], false, true⟩],
            [("x", "y"), ("a", "1"), ("b", "2")], ["a", "b"]⟩ : ClusterState).owned⟩ "r"
        = .ok s2 ∧
      (∀ k ∈ keysOf [("a", "1"), ("b", "2")], lookupLabel s2.nsLabels k = none) ∧
      (∀ k, k ∉ keysOf [("a", "1"), ("b", "2")] →
        lookupLabel s2.nsLabels k = lookupLabel [("x", "y")] k)) :=
  ⟨by decide,
    reconcile_deletion_cleanup "r" [("a", "1"), ("b", "2")] [("x", "y")]
      ⟨[⟨"r", [("a", "1"), ("b", "2")], false, true⟩],
        [("x", "y"), ("a", "1"), ("b", "2")], ["a", "b"]⟩ (by decide)⟩

/-- Claim C1: reconciling a fresh declaration with mapping `d1` and then,
after the user narrows it to `d2` (keys of `d2` ⊆ keys of `d1`), reconciling
again leaves every key of `d1 − d2` absent from the target, every key of
`d2` present with its declared value, and every key never declared by this
declaration unchanged from the initial target mapping. -/
theorem reconcile_ownership_scoped_removal (nm : String) (d1 d2 ns0 : Labels)
    (s1 s2 : ClusterState)
    (hsub : ∀ k ∈ keysOf d2, k ∈ keysOf d1)
    (hnd1 : (keysOf d1).Nodup) (hnd2 : (keysOf d2).Nodup)
    (h1 : Reconcile ⟨[⟨nm, d1, false, false⟩], ns0, []⟩ nm = .ok s1)
    (h2 : Reconcile ⟨[⟨nm, d2, false, true⟩], s1.nsLabels, s1.owned⟩ nm = .ok s2) :
    (∀ k ∈ keysOf d1, k ∉ keysOf d2 → lookupLabel s2.nsLabels k = none) ∧
    (∀ kv ∈ d2, lookupLabel s2.nsLabels kv.1 = some kv.2) ∧
    (∀ k, k ∉ keysOf d1 → k ∉ keysOf d2 →
      lookupLabel s2.nsLabels k = lookupLabel ns0 k) := by
  have hfind1 : findDecl [⟨nm, d1, false, false⟩] nm = some ⟨nm, d1, false, false⟩ := by
    simp [findDecl]
  obtain ⟨hs1, -⟩ := reconcile_active_inv _ nm _ _ hfind1 rfl h1
  subst hs1
  have hfind2 : findDecl [(⟨nm, d2, false, true⟩ : NamespaceLabel)] nm
      = some ⟨nm, d2, false, true⟩ := by
    simp [findDecl]
  obtain ⟨hs2, -⟩ := reconcile_active_inv _ nm _ _ hfind2 rfl h2
  subst hs2
  refine ⟨fun k hk1 hk2 => ?_, fun kv hkv => ?_, fun k hk1 hk2 => ?_⟩
  · exact applyDelta_lookup_removed _ _ _ hk1 hk2
  · exact applyDelta_lookup_declared _ _ _ hnd2 hkv
  · rw [applyDelta_lookup_untouched _ _ _ hk2 hk1]
    exact applyDelta_lookup_untouched _ _ _ hk1 (List.not_mem_nil k)

/-- Witness for C1: the spec's end-to-end scenario — `{label_1:a, label_2:b}`
narrowed to `{label_1:updated}` over a target carrying an unrelated label. -/
theorem reconcile_ownership_scoped_removal_witness :
    (∀ k ∈ keysOf [("label_1", "updated")],
      k ∈ keysOf [("label_1", "a"), ("label_2", "b")]) ∧
    (keysOf [("label_1", "a"), ("label_2", "b")]).Nodup ∧
    (keysOf [("label_1", "updated")]).Nodup ∧
    Reconcile ⟨[⟨"r", [("label_1", "a"), ("label_2", "b")], false, false⟩],
        [("x", "y")], []⟩ "r"
      = .ok ⟨[⟨"r", [("label_1", "a"), ("label_2", "b")], false, true⟩],
          [("x", "y"), ("label_1", "a"), ("label_2", "b")], ["label_1", "label_2"]⟩ ∧
    ((∀ k ∈ keysOf [("label_1", "a"), ("label_2", "b")],
        k ∉ keysOf [("label_1", "updated")] →
        lookupLabel [("x", "y"), ("label_1", "updated")] k = none) ∧
      (∀ kv ∈ ([("label_1", "updated")] : Labels),
        lookupLabel [("x", "y"), ("label_1", "updated")] kv.1 = some kv.2) ∧
      (∀ k, k ∉ keysOf [("label_1", "a"), ("label_2", "b")] →
        k ∉ keysOf [("label_1", "updated")] →
        lookupLabel [("x", "y"), ("label_1", "updated")] k
          = lookupLabel [("x", "y")] k)) :=
  ⟨by decide, by decide, by decide, by decide,
    reconcile_ownership_scoped_removal "r" [("label_1", "a"), ("label_2", "b")]
      [("label_1", "updated")] [("x", "y")]
      ⟨[⟨"r", [("label_1", "a"), ("label_2", "b")], false, true⟩],
        [("x", "y"), ("label_1", "a"), ("label_2", "b")], ["label_1", "label_2"]⟩
      ⟨[⟨"r", [("label_1", "updated")], false, true⟩],
        [("x", "y"), ("label_1", "updated")], ["label_1"]⟩
      (by decide) (by decide) (by decide) (by decide) (by decide)⟩

/-- Claim C6: `Reconcile` is idempotent — a second run on the state produced
by a successful run reproduces that state exactly (in particular the target
label mapping and the ownership record are identical after both runs). -/
theorem reconcile_idempotent (s : ClusterState) (name : String) (s1 : ClusterState)
    (hwf : WFState s) (h1 : Reconcile s name = .ok s1) :
    Reconcile s1 name = .ok s1 := by
  cases hfind : findDecl s.decls name with
  | none =>
    have hr : Reconcile s name = .ok s := by simp [Reconcile, hfind]
    rw [hr] at h1
    injection h1 with h1
    subst h1
    simp [Reconcile, hfind]
  | some d =>
    cases hdel : d.deleted with
    | true =>
      cases hfin : d.finalizer with
      | true =>
        have hr := reconcile_deleted_ok s name d hfind hdel hfin
        rw [hr] at h1
        injection h1 with h1
        subst h1
        simp [Reconcile, findDecl_removeDecl]
      | false =>
        have hr : Reconcile s name = .ok s := by simp [Reconcile, hfind, hdel, hfin]
        rw [hr] at h1
        injection h1 with h1
        subst h1
        simp [Reconcile, hfind, hdel, hfin]
    | false =>
      by_cases hcount : (s.decls.filter (fun d => !d.deleted)).length > 1
      · simp [Reconcile, hfind, hdel, hcount] at h1
      · obtain ⟨hs1, hmgmt⟩ := reconcile_active_inv s name d s1 hfind hdel h1
        subst hs1
        have hnd : (keysOf d.labels).Nodup := hwf d (List.mem_of_find?_eq_some hfind)
        have hfind2 : findDecl (setFinalizer s.decls name) name
            = some { d with finalizer := true } := findDecl_setFinalizer _ _ _ hfind
        have happly : applyDelta (applyDelta s.nsLabels d.labels s.owned) d.labels
            (keysOf d.labels) = applyDelta s.nsLabels d.labels s.owned :=
          applyDelta_self _ _ (fun kv hkv => applyDelta_lookup_declared _ _ _ hnd hkv)
        have hcount2 :
            ¬ ((setFinalizer s.decls name).filter (fun d => !d.deleted)).length > 1 := by
          rw [filter_deleted_setFinalizer]
          exact hcount
        simp [Reconcile, hfind2, hdel, hcount2, hmgmt, setFinalizer_idem, happly]

/-- Witness for C6 at a concrete one-declaration state. -/
theorem reconcile_idempotent_witness :
    WFState ⟨[⟨"r", [("a", "1")], false, false⟩], [], []⟩ ∧
    Reconcile ⟨[⟨"r", [("a", "1")], false, false⟩], [], []⟩ "r"
      = .ok ⟨[⟨"r", [("a", "1")], false, true⟩], [("a", "1")], ["a"]⟩ ∧
    Reconcile ⟨[⟨"r", [("a", "1")], false, true⟩], [("a", "1")], ["a"]⟩ "r"
      = .ok ⟨[⟨"r", [("a", "1")], false, true⟩], [("a", "1")], ["a"]⟩ :=
  ⟨by decide, by decide,
    reconcile_idempotent ⟨[⟨"r", [("a", "1")], false, false⟩], [], []⟩ "r"
      ⟨[⟨"r", [("a", "1")], false, true⟩], [("a", "1")], ["a"]⟩
      (by decide) (by decide)⟩

end NamespaceLabelProof
